import Mathlib

/-!
Shallow embedding of the deterministic financial engine of the repository:
the technical-indicator calculator (`qlib_wrapper.py`), the MA-crossover
strategy simulator and its metrics (`finrl_mock.py`), and the guard of the
API handler (`api/v1/backtest.py`).

Modelling conventions:
* Python floats are modelled as exact rationals (ℚ).  `round(x, 2)` is
  modelled by `round2` (round half to even, as Python's `round`).
* A pandas NaN that can reach an observable value is modelled as `none` of
  `Option ℚ` (so a column that may contain NaN is a `List (Option ℚ)`).
* A bar's `close` field is `Option ℚ`: `none` stands for a null or
  unparseable close (which `pd.to_numeric(..., errors="coerce")` turns into
  NaN and `dropna` then removes).
* Code that can raise a Python exception is modelled in `Except`:
  `ValueError` for the insufficient-data check, `IndexError` for `.iloc[0]`
  on an empty frame, `ZeroDivisionError` for scalar float division by zero.
  Pandas *vectorised* arithmetic never raises and is modelled with total
  rational division; every theorem below that touches such a division does
  so under positivity hypotheses (or at concrete positive inputs), where
  total division agrees with float semantics.
* `sharpe_ratio` multiplies by the irrational `sqrt 252`; its value is not
  modelled (no claim mentions it, and its computation in the source cannot
  raise: the division is guarded by `std_ret > 0` and the rest is pandas).
* `trade_results` is internal state in the source (not part of the returned
  dict); the embedding exposes it as a field of `BtResult` so that theorems
  can speak about realized trades.  All other fields mirror the source.
-/

/- The core rational operations are `@[irreducible]`, which blocks `decide`
from evaluating concrete runs; re-marking them semireducible only changes
elaboration-time unfolding, not definitional equality. -/
set_option allowUnsafeReducibility true
attribute [semireducible] Rat.add Rat.mul Rat.inv Rat.sub Rat.neg Rat.div

deriving instance DecidableEq for Except

/-- Round half to even at the third decimal's boundary: the integer nearest
to `x`, ties to the even integer (Python's `round`). -/
def roundHalfEven (x : ℚ) : ℤ :=
  let f : ℤ := ⌊x⌋
  let r : ℚ := x - f
  if r < 1/2 then f
  else if 1/2 < r then f + 1
  else if f % 2 = 0 then f else f + 1

/-- Python's `round(x, 2)`. -/
def round2 (x : ℚ) : ℚ := (roundHalfEven (100 * x) : ℚ) / 100

/-- One input OHLCV bar, restricted to the fields the engine reads.
`close = none` models a null/unparseable close. -/
structure Bar where
  date : String
  close : Option ℚ
deriving DecidableEq

/-! ## IndicatorEngine (`qlib_wrapper.py`) -/

/-- `_to_dataframe`: parse the close column and drop the rows whose close is
NaN; only the close column is ever read by the indicator helpers. -/
def to_dataframe (ohlcv : List Bar) : List ℚ :=
  ohlcv.filterMap (fun b => b.close)

/-- `series.diff().dropna()`: consecutive differences. -/
def diffList (xs : List ℚ) : List ℚ :=
  List.zipWith (fun a b => b - a) xs xs.tail

/-- Accumulator for pandas `ewm(..., adjust=True).mean()`:
`num_t = x_t + β·num_{t-1}`, `den_t = 1 + β·den_{t-1}`, value `num_t/den_t`,
where `β = 1 - α`. -/
def ewmAdjAux (β : ℚ) (num den : ℚ) : List ℚ → List ℚ
  | [] => []
  | x :: rest =>
    let n := β * num + x
    let d := β * den + 1
    n / d :: ewmAdjAux β n d rest

/-- Mask the first `minP - 1` positions with `none` (pandas `min_periods`;
the inputs fed to it here contain no NaN, so the observation count at
position `t` is `t + 1`). -/
def maskMinPeriods (minP : Nat) (t : Nat) : List ℚ → List (Option ℚ)
  | [] => []
  | v :: rest =>
    (if t + 1 < minP then none else some v) :: maskMinPeriods minP (t + 1) rest

/-- `series.ewm(com=com, min_periods=minP).mean()` with the default
`adjust=True`; `α = 1/(1+com)`, so `β = 1-α = com/(1+com)`. -/
def ewmMean (com : ℚ) (minP : Nat) (xs : List ℚ) : List (Option ℚ) :=
  maskMinPeriods minP 0 (ewmAdjAux (com / (1 + com)) 0 0 xs)

/-- `avg_loss.replace(0, float("nan"))`. -/
def replaceZeroNaN (o : Option ℚ) : Option ℚ :=
  o.bind (fun q => if q = 0 then none else some q)

/-- NaN-propagating division of two column entries.  Whenever both operands
are `some`, the divisor is nonzero in the only use (zeros were replaced by
`none` first), so total rational division is faithful. -/
def divNaN (a b : Option ℚ) : Option ℚ :=
  match a, b with
  | some x, some y => some (x / y)
  | _, _ => none

/-- `_calc_rsi`: Wilder-smoothed RSI.  The result is `Option ℚ`, `none`
standing for a float NaN result (which the source returns as a plain
`float`). -/
def calc_rsi (series : List ℚ) (period : Nat) : Option ℚ :=
  if series.length < period + 1 then some 50
  else
    let delta := diffList series
    let gain := delta.map (fun d => max d 0)
    let loss := delta.map (fun d => max (-d) 0)
    let avgGain := ewmMean ((period : ℚ) - 1) period gain
    let avgLoss := (ewmMean ((period : ℚ) - 1) period loss).map replaceZeroNaN
    let rs := List.zipWith divNaN avgGain avgLoss
    let rsi := rs.map (Option.map (fun r => 100 - 100 / (1 + r)))
    match rsi.getLast? with
    | some v => v
    | none => some 50

/-- MACD signal values. -/
inductive MacdSignal
  | bullish
  | bearish
  | neutral
deriving DecidableEq

/-- Recursive (unadjusted) EMA after the seed: `y_t = α·x_t + (1-α)·y_{t-1}`. -/
def emaAux (α : ℚ) (prev : ℚ) : List ℚ → List ℚ
  | [] => []
  | x :: rest =>
    let y := α * x + (1 - α) * prev
    y :: emaAux α y rest

/-- `series.ewm(span=span, adjust=False).mean()`: seeded with the first
observation, `α = 2/(span+1)`. -/
def emaUnadjusted (span : ℚ) (xs : List ℚ) : List ℚ :=
  match xs with
  | [] => []
  | x :: rest => x :: emaAux (2 / (span + 1)) x rest

/-- `_calc_macd_signal`. -/
def calc_macd_signal (series : List ℚ) : MacdSignal :=
  if series.length < 26 then .neutral
  else
    let ema12 := emaUnadjusted 12 series
    let ema26 := emaUnadjusted 26 series
    let macdLine := List.zipWith (fun a b => a - b) ema12 ema26
    let signalLine := emaUnadjusted 9 macdLine
    match macdLine.getLast?, signalLine.getLast? with
    | some m, some s =>
      if m > s then .bullish else if m < s then .bearish else .neutral
    | _, _ => .neutral

/-- `series.rolling(window).mean()` (window ≥ 1): position `i` holds the mean
of the `window` entries ending at `i`, `none` (NaN) while the window is not
yet full. -/
def rollingMean (window : Nat) (xs : List ℚ) : List (Option ℚ) :=
  (List.range xs.length).map (fun i =>
    if window ≤ i + 1 then
      some (((xs.take (i + 1)).drop (i + 1 - window)).sum / window)
    else none)

/-- `_calc_ma`: `none` if fewer than `window` points, else the last rolling
mean. -/
def calc_ma (series : List ℚ) (window : Nat) : Option ℚ :=
  if series.length < window then none
  else (rollingMean window series).getLastD none

/-- The indicator result dict.  `rsi = none` models a float NaN in the
`rsi` entry. -/
structure IndicatorResult where
  rsi : Option ℚ
  macd : MacdSignal
  ma20 : Option ℚ
  ma60 : Option ℚ
deriving DecidableEq

/-- The body of `compute_indicators`'s `try` block.  The only statement in
it that can raise on this input model is `df["close"]` inside
`_to_dataframe`: `pd.DataFrame([])` has no `close` column, so the empty
input raises `KeyError` (modelled as `.error ()`).  Everything after it is
guarded by length checks or NaN-propagating. -/
def compute_indicators_inner (ohlcv : List Bar) : Except Unit IndicatorResult :=
  if ohlcv.isEmpty then .error ()
  else
    let closes := to_dataframe ohlcv
    .ok
      { rsi := (calc_rsi closes 14).map round2
        macd := calc_macd_signal closes
        ma20 := (calc_ma closes 20).map round2
        ma60 := (calc_ma closes 60).map round2 }

/-- The defaults returned by `compute_indicators`'s `except` branch. -/
def indicatorDefaults : IndicatorResult :=
  { rsi := some 50, macd := .neutral, ma20 := none, ma60 := none }

/-- `compute_indicators`: the `try`/`except Exception` wrapper. -/
def compute_indicators (ohlcv : List Bar) : IndicatorResult :=
  match compute_indicators_inner ohlcv with
  | .ok r => r
  | .error _ => indicatorDefaults

/-! ## StrategySimulator and MetricsCalculator (`finrl_mock.py`) -/

/-- Python exceptions `run_backtest` can raise. -/
inductive BtError
  | insufficientData   -- the `ValueError` of the explicit length check
  | indexError         -- `.iloc[0]` on an empty post-dropna frame
  | zeroDivision       -- scalar float division by zero
deriving DecidableEq

/-- One row of the simulation window: date, close, and the two already
computed rolling means (all non-NaN after the `dropna`). -/
structure SimRow where
  date : String
  close : ℚ
  maS : ℚ
  maL : ℚ
deriving DecidableEq

/-- The loop-carried state of the simulation: `equity` is the cash variable,
`position` the share count, `trades` the `trade_results` list (per-share
pnl of each closed trade, in order), `curve` the accumulated equity curve,
`prevS`/`prevL` the previous bar's moving averages. -/
structure BtState where
  equity : ℚ
  position : ℚ
  entryPrice : ℚ
  trades : List ℚ
  curve : List (String × ℚ)
  prevS : ℚ
  prevL : ℚ
deriving DecidableEq

/-- `df[["date","close"]]` after `to_numeric` + `dropna(subset=["close"])`:
the (date, close) pairs with a parseable close. -/
def cleanBars (ohlcv : List Bar) : List (String × ℚ) :=
  ohlcv.filterMap (fun b => b.close.map (fun c => (b.date, c)))

/-- Rows surviving `df.dropna()` after both rolling means are attached: the
simulation window. -/
def simWindow (maS maL : Nat) (cleaned : List (String × ℚ)) : List SimRow :=
  let closes := cleaned.map (fun p => p.2)
  let ms := rollingMean maS closes
  let ml := rollingMean maL closes
  (cleaned.zip (ms.zip ml)).filterMap (fun p =>
    match p.2.1, p.2.2 with
    | some a, some b => some ⟨p.1.1, p.1.2, a, b⟩
    | _, _ => none)

/-- The state right before the loop: cash = initial capital, flat position,
`prev_short`/`prev_long` seeded with the first row's own moving averages. -/
def initState (cap : ℚ) (r : SimRow) : BtState :=
  ⟨cap, 0, 0, [], [], r.maS, r.maL⟩

/-- The buy/sell transition of one loop iteration (the `if`/`elif` block).
Scalar divisions model Python's `ZeroDivisionError`. -/
def btStepCore (tp sl : ℚ) (st : BtState) (r : SimRow) : Except BtError BtState :=
  if st.prevS ≤ st.prevL ∧ r.maS > r.maL ∧ st.position = 0 then
    -- Golden cross → BUY
    if r.close = 0 then .error .zeroDivision
    else .ok { st with position := st.equity / r.close, entryPrice := r.close }
  else if st.position > 0 then
    -- Death cross OR take-profit / stop-loss → SELL
    if st.entryPrice = 0 then .error .zeroDivision
    else
      let change := (r.close - st.entryPrice) / st.entryPrice
      if (st.prevS ≥ st.prevL ∧ r.maS < r.maL) ∨ change ≥ tp ∨ change ≤ -sl then
        .ok { st with equity := st.position * r.close,
                      trades := st.trades ++ [r.close - st.entryPrice],
                      position := 0, entryPrice := 0 }
      else .ok st
  else .ok st

/-- The tail of one loop iteration: record the equity-curve point and shift
`prev_short`/`prev_long`. -/
def btRecord (r : SimRow) (st : BtState) : BtState :=
  let currentEquity :=
    if st.position > 0 then st.position * r.close + st.equity else st.equity
  { st with curve := st.curve ++ [(r.date, round2 currentEquity)],
            prevS := r.maS, prevL := r.maL }

/-- One full iteration of the `for i, row in df.iterrows()` loop. -/
def btStep (tp sl : ℚ) (st : BtState) (r : SimRow) : Except BtError BtState :=
  (btStepCore tp sl st r).map (btRecord r)

/-- The full loop. -/
def btLoop (tp sl : ℚ) (st : BtState) (rows : List SimRow) : Except BtError BtState :=
  rows.foldlM (btStep tp sl) st

/-- "Close open position at last price": overwrite cash with the liquidation
value and append the trade; the equity curve and the position fields are not
touched. -/
def liquidate (lastClose : ℚ) (st : BtState) : BtState :=
  if st.position > 0 then
    { st with equity := st.position * lastClose,
              trades := st.trades ++ [lastClose - st.entryPrice] }
  else st

/-- `equities.cummax()` tail given the running maximum so far. -/
def cummaxAux (m : ℚ) : List ℚ → List ℚ
  | [] => []
  | x :: rest =>
    let m2 := max m x
    m2 :: cummaxAux m2 rest

/-- `equities.cummax()`. -/
def cummax : List ℚ → List ℚ
  | [] => []
  | x :: rest => x :: cummaxAux x rest

/-- `(equities - rolling_max) / rolling_max * 100` (pandas division: never
raises; all claims about it assume positive equities, where total rational
division is faithful). -/
def drawdowns (es : List ℚ) : List ℚ :=
  List.zipWith (fun e m => (e - m) / m * 100) es (cummax es)

/-- `Series.min()` of a nonempty series (the empty case would be NaN in
pandas; in `run_backtest` the series is nonempty whenever it is formed). -/
def listMin : List ℚ → ℚ
  | [] => 0
  | x :: rest => rest.foldl min x

/-- `float(drawdown.min())` of lines 115–118. -/
def maxDrawdownRaw (es : List ℚ) : ℚ := listMin (drawdowns es)

/-- `final_equity = equity_curve[-1]["equity"] if equity_curve else
initial_capital`. -/
def finalEquityOf (cap : ℚ) (curve : List (String × ℚ)) : ℚ :=
  match curve.getLast? with
  | some p => p.2
  | none => cap

/-- The metrics dict (without `sharpe_ratio`, see the header comment). -/
structure BtMetrics where
  totalReturnPct : ℚ
  maxDrawdownPct : ℚ
  numTrades : Nat
  winRatePct : ℚ
deriving DecidableEq

/-- The metrics values, defined when `initial_capital ≠ 0`. -/
def mkMetricsVal (cap : ℚ) (curve : List (String × ℚ)) (trades : List ℚ) : BtMetrics :=
  let finalEquity := finalEquityOf cap curve
  let totalReturn := (finalEquity - cap) / cap * 100
  let es := curve.map (fun p => p.2)
  let numTrades := trades.length
  let winRate : ℚ :=
    if numTrades = 0 then 0
    else ((trades.filter (fun t => decide ((0 : ℚ) < t))).length : ℚ) / numTrades * 100
  ⟨round2 totalReturn, round2 (maxDrawdownRaw es), numTrades, round2 winRate⟩

/-- The metrics block; `(final_equity - initial_capital) / initial_capital`
is a scalar float division, raising when `initial_capital = 0`. -/
def mkMetrics (cap : ℚ) (curve : List (String × ℚ)) (trades : List ℚ) :
    Except BtError BtMetrics :=
  if cap = 0 then .error .zeroDivision
  else .ok (mkMetricsVal cap curve trades)

/-- `f"MA-Crossover ({ma_short}/{ma_long})"`. -/
def strategyLabel (maS maL : Nat) : String :=
  "MA-Crossover (" ++ toString maS ++ "/" ++ toString maL ++ ")"

/-- The returned dict (with the internal `trade_results` exposed, see the
header comment). -/
structure BtResult where
  strategy : String
  metrics : BtMetrics
  equityCurve : List (String × ℚ)
  trades : List ℚ
deriving DecidableEq

/-- `run_backtest` of `finrl_mock.py`, as a function of the fetched series
(the fetch itself is external I/O and out of scope). -/
def run_backtest (ohlcv : List Bar) (cap tp sl : ℚ) (maS maL : Nat) :
    Except BtError BtResult :=
  if ohlcv.length < maL + 5 then .error .insufficientData
  else
    let cleaned := cleanBars ohlcv
    let rows := simWindow maS maL cleaned
    match rows with
    | [] => .error .indexError      -- `.iloc[0]` on the empty frame
    | r0 :: rest =>
      match btLoop tp sl (initState cap r0) (r0 :: rest) with
      | .error e => .error e
      | .ok st =>
        let lastClose := ((r0 :: rest).getLastD r0).close
        let st2 := liquidate lastClose st
        match mkMetrics cap st2.curve st2.trades with
        | .error e => .error e
        | .ok m => .ok ⟨strategyLabel maS maL, m, st2.curve, st2.trades⟩

/-! ## API handler (`api/v1/backtest.py`) -/

/-- The HTTP error outcomes of the handler, tagged by origin. -/
inductive ApiError
  | invalidWindows      -- 422 "ma_short must be strictly less than ma_long."
  | unprocessable422    -- 422 from a ValueError of run_backtest
  | serverError500      -- 500 from any other exception
deriving DecidableEq

/-- The handler body: the window guard, then delegation with the
`ValueError` → 422 / other → 500 mapping. -/
def handleBacktest (ohlcv : List Bar) (cap tp sl : ℚ) (maS maL : Nat) :
    Except ApiError BtResult :=
  if maS ≥ maL then .error .invalidWindows
  else
    match run_backtest ohlcv cap tp sl maS maL with
    | .ok r => .ok r
    | .error .insufficientData => .error .unprocessable422
    | .error _ => .error .serverError500

/-! ## Concrete inputs used by counterexamples and witnesses -/

/-- Ten bars closing at 100 followed by five closing at 110: with windows
5/10 this produces a golden cross on the second bar of the simulation
window and the run ends Long. -/
def exBars : List Bar :=
  (List.range 10).map (fun i => ⟨"a" ++ toString i, some 100⟩) ++
  (List.range 5).map (fun i => ⟨"b" ++ toString i, some 110⟩)

/-- Fifteen bars whose close is null/unparseable. -/
def nullBars : List Bar := List.replicate 15 ⟨"n", none⟩

/-- Fifteen bars with strictly increasing closes 1..15: a no-losses RSI
window. -/
def incBars : List Bar :=
  (List.range 15).map (fun i => ⟨"c" ++ toString i, some ((i : ℚ) + 1)⟩)

/-- The first simulation-window row of `exBars` (flat segment: both moving
averages equal 100). -/
def exRow0 : SimRow := ⟨"a9", 100, 100, 100⟩

/-- The remaining simulation-window rows of `exBars` with windows 5/10. -/
def exRowsRest : List SimRow :=
  [⟨"b0", 110, 102, 101⟩, ⟨"b1", 110, 104, 102⟩, ⟨"b2", 110, 106, 103⟩,
   ⟨"b3", 110, 108, 104⟩, ⟨"b4", 110, 110, 105⟩]

/-- The loop state of `exBars` (capital 1100, windows 5/10) after the last
bar: still Long with 10 shares bought at 110, cash never zeroed. -/
def exStLong : BtState :=
  ⟨1100, 10, 110, [],
   [("a9", 1100), ("b0", 2200), ("b1", 2200), ("b2", 2200),
    ("b3", 2200), ("b4", 2200)], 110, 105⟩

/-! ## Claims -/

/-- C1 (code bug): the spec says that after an entry the cash becomes 0 and
every Long bar's recorded equity is exactly shares·price.  On `exBars` with
capital 1100 the only entry buys `1100 / 110 = 10` shares at 110, so the
claim predicts every Long bar's equity-curve value to be
`10 · 110 = 1100`; the code leaves the cash variable at 1100 and records
`position * price + equity = 2200` on every Long bar (the five last
points), double-counting the initial capital. -/
theorem c1_long_equity_double_counted :
    (run_backtest exBars 1100 (15/100) (8/100) 5 10).toOption.map
        (fun r => r.equityCurve.map (fun p => p.2))
      = some [1100, 2200, 2200, 2200, 2200, 2200]
    ∧ (1100 : ℚ) / 110 * 110 = 1100
    ∧ (2200 : ℚ) ≠ 1100 / 110 * 110 := by decide

/-- C2 (code bug): equity conservation.  On `exBars` the realized trades
are exactly the forced end-of-window liquidation with per-share pnl 0 and
10 = 1100/110 shares, so
`initial_capital + Σ shares·pnl = 1100 + 10·0 = 1100`; but the last
equity-curve point (the `final_equity` reconciled by the metrics) is 2200:
conservation is violated by exactly the double-counted initial capital. -/
theorem c2_equity_conservation_fails :
    (run_backtest exBars 1100 (15/100) (8/100) 5 10).toOption.map
        (fun r => ((r.equityCurve.getLastD ("", 0)).2, r.trades))
      = some (2200, [0])
    ∧ (1100 : ℚ) + 1100 / 110 * 0 = 1100
    ∧ (2200 : ℚ) ≠ 1100 + 1100 / 110 * 0 := by decide

/-- C4 counterexample: fifteen bars (= ma_long + 5 for windows 5/10) whose
closes are all null pass the insufficient-data check, but after the dropna
the frame is empty and `df[...].iloc[0]` raises IndexError — a failure mode
other than InsufficientData. -/
theorem c4_counterexample_null_closes :
    run_backtest nullBars 1000 (15/100) (8/100) 5 10 = .error .indexError
    ∧ 10 + 5 ≤ nullBars.length := by decide

/-- C5 (confirmed): whenever `ma_short ≥ ma_long` the handler returns the
422 rejection for *every* price series — the guard fires before
`run_backtest` is consulted, so no moving averages are computed and no bars
are walked. -/
theorem c5_short_ge_long_rejected (ohlcv : List Bar) (cap tp sl : ℚ)
    (maS maL : Nat) (h : maL ≤ maS) :
    handleBacktest ohlcv cap tp sl maS maL = .error .invalidWindows := by
  unfold handleBacktest
  rw [if_pos h]

/-- C5 witness: windows 60/20 are rejected regardless of the (empty) data. -/
theorem c5_witness :
    handleBacktest [] 1000 (15/100) (8/100) 60 20 = .error .invalidWindows :=
  c5_short_ge_long_rejected [] 1000 (15/100) (8/100) 60 20 (by decide)

/-- C6 (confirmed): `compute_indicators` is total by construction (the
`try`/`except Exception` wrapper), and whenever the wrapped body raises, the
returned value is exactly the documented defaults
`rsi = 50.0, macd = neutral, ma20 = none, ma60 = none`. -/
theorem c6_defaults_on_internal_raise (ohlcv : List Bar) (e : Unit)
    (h : compute_indicators_inner ohlcv = .error e) :
    compute_indicators ohlcv = indicatorDefaults := by
  unfold compute_indicators
  rw [h]

/-- C6 witness: the empty input (whose frame has no `close` column, raising
KeyError inside the body) yields exactly the defaults. -/
theorem c6_witness : compute_indicators [] = indicatorDefaults :=
  c6_defaults_on_internal_raise [] () (by decide)

/-- C10 (confirmed): the simulation can never open a position on the first
bar of the window.  `run_backtest` seeds `prev_short`/`prev_long` with the
first row's own moving averages and then processes that same row first, so
the golden-cross test demands `maS ≤ maL ∧ maS > maL` — impossible — and
the state after the first iteration is still Flat, recording the initial
capital as the first equity point. -/
theorem c10_no_entry_on_first_bar (cap tp sl : ℚ) (r : SimRow) :
    btStep tp sl (initState cap r) r =
      .ok ⟨cap, 0, 0, [], [(r.date, round2 cap)], r.maS, r.maL⟩ := by
  unfold btStep btStepCore initState btRecord
  have h1 : ¬(r.maS ≤ r.maL ∧ r.maS > r.maL ∧ (0 : ℚ) = 0) := by
    rintro ⟨hle, hgt, h0⟩
    exact absurd hgt (not_lt.mpr hle)
  rw [if_neg h1, if_neg (lt_irrefl (0 : ℚ))]
  simp [Except.map]

/-- The last entry of a full rolling mean is the mean of the last `window`
elements. -/
theorem rollingMean_getLastD (w : Nat) (xs : List ℚ) (hw : 0 < w)
    (hlen : w ≤ xs.length) :
    (rollingMean w xs).getLastD none =
      some ((xs.drop (xs.length - w)).sum / w) := by
  obtain ⟨n, hn⟩ : ∃ n, xs.length = n + 1 := ⟨xs.length - 1, by omega⟩
  unfold rollingMean
  rw [hn, List.range_succ, List.map_append]
  simp only [List.map_cons, List.map_nil]
  rw [List.getLastD_concat]
  rw [if_pos (by omega)]
  have : xs.take (n + 1) = xs := by rw [← hn]; exact List.take_length xs
  rw [this, ← hn]

/-- C8 (confirmed): for every positive window size `w`, `_calc_ma` of a
series with exactly `w` closing prices is the arithmetic mean of all of
them, and `_calc_ma` of a series with `w - 1` closing prices is None. -/
theorem c8_sma_full_window_and_short_window (w : Nat) (hw : 0 < w)
    (xs ys : List ℚ) (hx : xs.length = w) (hy : ys.length = w - 1) :
    calc_ma xs w = some (xs.sum / w) ∧ calc_ma ys w = none := by
  constructor
  · unfold calc_ma
    rw [if_neg (by omega)]
    rw [rollingMean_getLastD w xs hw (by omega)]
    rw [hx, Nat.sub_self, List.drop_zero]
  · unfold calc_ma
    rw [if_pos (by omega)]

/-- C8 witness: window 2 on `[1, 3]` gives the mean of both points; on the
one-point series `[5]` it gives None. -/
theorem c8_witness :
    calc_ma [1, 3] 2 = some (([1, 3] : List ℚ).sum / 2) ∧ calc_ma [5] 2 = none :=
  c8_sma_full_window_and_short_window 2 (by decide) [1, 3] [5] (by decide) (by decide)

/-- `zipWith` as a map over the zip, to reason about membership in the
drawdown column. -/
theorem zipWith_eq_map_zip (f : ℚ → ℚ → ℚ) :
    ∀ (a b : List ℚ), List.zipWith f a b = (a.zip b).map (fun p => f p.1 p.2)
  | [], _ => by simp
  | _ :: _, [] => by simp
  | x :: a, y :: b => by
    simp [List.zip_cons_cons, zipWith_eq_map_zip f a b]

theorem fst_le_snd_of_mem_zip_cummaxAux :
    ∀ (l : List ℚ) (m : ℚ) (p : ℚ × ℚ), p ∈ l.zip (cummaxAux m l) → p.1 ≤ p.2
  | [], _, _ => by simp [cummaxAux]
  | x :: rest, m, p => by
    intro hp
    simp only [cummaxAux, List.zip_cons_cons, List.mem_cons] at hp
    rcases hp with h | h
    · rw [h]; exact le_max_right m x
    · exact fst_le_snd_of_mem_zip_cummaxAux rest (max m x) p h

theorem fst_le_snd_of_mem_zip_cummax (es : List ℚ) (p : ℚ × ℚ)
    (hp : p ∈ es.zip (cummax es)) : p.1 ≤ p.2 := by
  cases es with
  | nil => simp [cummax] at hp
  | cons x rest =>
    simp only [cummax, List.zip_cons_cons, List.mem_cons] at hp
    rcases hp with h | h
    · rw [h]
    · exact fst_le_snd_of_mem_zip_cummaxAux rest x p h

theorem foldl_min_le_init : ∀ (l : List ℚ) (a : ℚ), l.foldl min a ≤ a
  | [], a => le_refl a
  | x :: rest, a => le_trans (foldl_min_le_init rest (min a x)) (min_le_left a x)

theorem foldl_min_le_mem : ∀ (l : List ℚ) (a x : ℚ), x ∈ l → l.foldl min a ≤ x
  | [], _, _, h => by simp at h
  | y :: rest, a, x, h => by
    rcases List.mem_cons.mp h with h1 | h1
    · subst h1
      exact le_trans (foldl_min_le_init rest (min a x)) (min_le_right a x)
    · exact foldl_min_le_mem rest (min a y) x h1

theorem foldl_min_mem_or : ∀ (l : List ℚ) (a : ℚ), l.foldl min a = a ∨ l.foldl min a ∈ l
  | [], a => Or.inl rfl
  | x :: rest, a => by
    rcases foldl_min_mem_or rest (min a x) with h | h
    · rcases min_cases a x with ⟨he, _⟩ | ⟨he, _⟩
      · left; rw [List.foldl_cons, h, he]
      · right; rw [List.foldl_cons, h, he]; exact List.mem_cons_self x rest
    · right; exact List.mem_cons_of_mem x h

theorem listMin_mem (l : List ℚ) (h : l ≠ []) : listMin l ∈ l := by
  cases l with
  | nil => exact absurd rfl h
  | cons x rest =>
    rcases foldl_min_mem_or rest x with h1 | h1
    · show rest.foldl min x ∈ x :: rest
      rw [h1]; exact List.mem_cons_self x rest
    · exact List.mem_cons_of_mem x h1

theorem listMin_le (l : List ℚ) (x : ℚ) (h : x ∈ l) : listMin l ≤ x := by
  cases l with
  | nil => simp at h
  | cons y rest =>
    rcases List.mem_cons.mp h with h1 | h1
    · subst h1; exact foldl_min_le_init rest x
    · exact foldl_min_le_mem rest y x h1

/-- C7 (confirmed): for every non-empty equity curve with positive values,
the `max_drawdown` computed at lines 115-118 (before the 2-decimal display
rounding) is ≤ 0, and it is 0 exactly when no equity value falls below its
running peak (`p` ranges over the (equity, running-max) pairs). -/
theorem c7_drawdown (es : List ℚ) (hne : es ≠ []) (hpos : ∀ e ∈ es, 0 < e) :
    maxDrawdownRaw es ≤ 0 ∧
      (maxDrawdownRaw es = 0 ↔ ∀ p ∈ es.zip (cummax es), p.2 ≤ p.1) := by
  have hdd : drawdowns es = (es.zip (cummax es)).map (fun p => (p.1 - p.2) / p.2 * 100) :=
    zipWith_eq_map_zip _ es (cummax es)
  have hsnd_pos : ∀ p ∈ es.zip (cummax es), (0 : ℚ) < p.2 := by
    intro p hp
    have h1 : p.1 ≤ p.2 := fst_le_snd_of_mem_zip_cummax es p hp
    have h2 : p.1 ∈ es := (List.of_mem_zip hp).1
    exact lt_of_lt_of_le (hpos p.1 h2) h1
  have hd_nonpos : ∀ d ∈ drawdowns es, d ≤ 0 := by
    intro d hd
    rw [hdd] at hd
    obtain ⟨p, hp, hdp⟩ := List.mem_map.mp hd
    have h1 : p.1 ≤ p.2 := fst_le_snd_of_mem_zip_cummax es p hp
    have h2 : (0 : ℚ) < p.2 := hsnd_pos p hp
    have : (p.1 - p.2) / p.2 ≤ 0 :=
      div_nonpos_of_nonpos_of_nonneg (by linarith) (le_of_lt h2)
    rw [← hdp]
    nlinarith
  have hdd_ne : drawdowns es ≠ [] := by
    cases es with
    | nil => exact absurd rfl hne
    | cons x rest => simp [drawdowns, cummax]
  have hmem : listMin (drawdowns es) ∈ drawdowns es := listMin_mem _ hdd_ne
  refine ⟨hd_nonpos _ hmem, ?_, ?_⟩
  · -- min = 0 → every equity equals its running max
    intro h0 p hp
    have hd_in : ((fun p : ℚ × ℚ => (p.1 - p.2) / p.2 * 100) p) ∈ drawdowns es := by
      rw [hdd]; exact List.mem_map_of_mem _ hp
    have hge : (0 : ℚ) ≤ (p.1 - p.2) / p.2 * 100 := by
      have := listMin_le _ _ hd_in
      rw [maxDrawdownRaw] at h0
      linarith
    have hle := hd_nonpos _ hd_in
    have heq : (p.1 - p.2) / p.2 * 100 = 0 := le_antisymm hle hge
    have h2 : (0 : ℚ) < p.2 := hsnd_pos p hp
    have : p.1 - p.2 = 0 := by
      have h100 : ((p.1 - p.2) / p.2) = 0 := by linarith
      field_simp at h100
      linarith
    linarith
  · -- every equity at its running max → min = 0
    intro hall
    have hzero : ∀ d ∈ drawdowns es, d = 0 := by
      intro d hd
      rw [hdd] at hd
      obtain ⟨p, hp, hdp⟩ := List.mem_map.mp hd
      have h1 : p.1 ≤ p.2 := fst_le_snd_of_mem_zip_cummax es p hp
      have h2 : p.2 ≤ p.1 := hall p hp
      have : p.1 = p.2 := le_antisymm h1 h2
      rw [← hdp, this]
      simp
    exact hzero _ hmem

/-- C7 witness: the curve `[100, 50]` has a negative max drawdown, so the
iff's right side fails as well. -/
theorem c7_witness :
    maxDrawdownRaw [100, 50] ≤ 0 ∧
      (maxDrawdownRaw [100, 50] = 0 ↔
        ∀ p ∈ ([100, 50] : List ℚ).zip (cummax [100, 50]), p.2 ≤ p.1) :=
  c7_drawdown [100, 50] (by decide) (by decide)

/-- C9 (confirmed): when the loop ends Long, the forced end-of-window
liquidation appends exactly one trade (pnl = last close − entry price) and
overwrites the cash variable, but the equity curve is returned exactly as
the loop built it — no point is appended — and the metrics are computed
from that untouched curve (whose last point is the `final_equity`). -/
theorem c9_liquidation_frame (ohlcv : List Bar) (cap tp sl : ℚ) (maS maL : Nat)
    (r0 : SimRow) (rest : List SimRow) (st : BtState)
    (hlen : ¬ ohlcv.length < maL + 5)
    (hrows : simWindow maS maL (cleanBars ohlcv) = r0 :: rest)
    (hloop : btLoop tp sl (initState cap r0) (r0 :: rest) = .ok st)
    (hpos : 0 < st.position)
    (hcap : cap ≠ 0) :
    run_backtest ohlcv cap tp sl maS maL =
      .ok ⟨strategyLabel maS maL,
           mkMetricsVal cap st.curve
             (st.trades ++ [((r0 :: rest).getLastD r0).close - st.entryPrice]),
           st.curve,
           st.trades ++ [((r0 :: rest).getLastD r0).close - st.entryPrice]⟩ := by
  unfold run_backtest
  rw [if_neg hlen]
  simp only [hrows, hloop]
  unfold liquidate
  rw [if_pos hpos]
  unfold mkMetrics
  rw [if_neg hcap]

/-- C9 witness: on `exBars` the loop ends Long with state `exStLong`; the
returned curve is the loop's curve and the liquidation trade is appended. -/
theorem c9_witness :
    run_backtest exBars 1100 (15/100) (8/100) 5 10 =
      .ok ⟨strategyLabel 5 10,
           mkMetricsVal 1100 exStLong.curve
             (exStLong.trades ++
               [((exRow0 :: exRowsRest).getLastD exRow0).close - exStLong.entryPrice]),
           exStLong.curve,
           exStLong.trades ++
             [((exRow0 :: exRowsRest).getLastD exRow0).close - exStLong.entryPrice]⟩ :=
  c9_liquidation_frame exBars 1100 (15/100) (8/100) 5 10 exRow0 exRowsRest exStLong
    (by decide) (by decide) (by decide) (by decide) (by decide)

/-- `Except` bind on an error short-circuits. -/
theorem except_bind_error {ε α β : Type} (e : ε) (f : α → Except ε β) :
    (Except.error e : Except ε α) >>= f = .error e := rfl

/-- `Except` bind on a success continues. -/
theorem except_bind_ok {ε α β : Type} (a : α) (f : α → Except ε β) :
    (Except.ok a : Except ε α) >>= f = f a := rfl

/-- Mapping over an `Except` preserves the error. -/
theorem except_map_error {ε α β : Type} (f : α → β) (x : Except ε α) (e : ε) :
    x.map f = .error e ↔ x = .error e := by
  cases x <;> simp [Except.map]

/-- The loop body can only raise ZeroDivisionError. -/
theorem btStepCore_error_only_zd (tp sl : ℚ) (st : BtState) (r : SimRow)
    (e : BtError) (h : btStepCore tp sl st r = .error e) : e = .zeroDivision := by
  unfold btStepCore at h
  try simp only [] at h
  split_ifs at h
  all_goals (cases h; rfl)

/-- A loop iteration can only raise ZeroDivisionError. -/
theorem btStep_error_only_zd (tp sl : ℚ) (st : BtState) (r : SimRow)
    (e : BtError) (h : btStep tp sl st r = .error e) : e = .zeroDivision := by
  unfold btStep at h
  rw [except_map_error] at h
  exact btStepCore_error_only_zd tp sl st r e h

/-- The whole loop can only raise ZeroDivisionError. -/
theorem btLoop_error_only_zd (tp sl : ℚ) :
    ∀ (rows : List SimRow) (st : BtState) (e : BtError),
      btLoop tp sl st rows = .error e → e = .zeroDivision
  | [], st, e => by
    intro h
    exact absurd h (by simp [btLoop, List.foldlM, pure, Except.pure])
  | r :: rest, st, e => by
    intro h
    unfold btLoop at h
    rw [List.foldlM_cons] at h
    cases hs : btStep tp sl st r with
    | error e2 =>
      rw [hs, except_bind_error] at h
      cases h
      exact btStep_error_only_zd tp sl st r e hs
    | ok st2 =>
      rw [hs, except_bind_ok] at h
      exact btLoop_error_only_zd tp sl rest st2 e h

/-- The metrics block can only raise ZeroDivisionError. -/
theorem mkMetrics_error_only_zd (cap : ℚ) (curve : List (String × ℚ))
    (trades : List ℚ) (e : BtError) (h : mkMetrics cap curve trades = .error e) :
    e = .zeroDivision := by
  unfold mkMetrics at h
  split_ifs at h
  cases h
  rfl


/-- A rolling mean has one entry per input point. -/
theorem length_rollingMean (w : Nat) (xs : List ℚ) :
    (rollingMean w xs).length = xs.length := by
  unfold rollingMean
  rw [List.length_map, List.length_range]

/-- The rolling-mean entry at a position. -/
theorem rollingMean_getElem (w : Nat) (xs : List ℚ) (i : Nat)
    (hi : i < (rollingMean w xs).length) :
    (rollingMean w xs)[i] =
      if w ≤ i + 1 then some (((xs.take (i + 1)).drop (i + 1 - w)).sum / w)
      else none := by
  unfold rollingMean at hi ⊢
  rw [List.getElem_map, List.getElem_range]

/-- With `1 ≤ maS ≤ maL ≤` the number of parsed bars, the simulation
window is nonempty (the last bar has both moving averages defined). -/
theorem simWindow_ne_nil (maS maL : Nat) (cleaned : List (String × ℚ))
    (hS : 1 ≤ maS) (hSL : maS ≤ maL) (hlen : maL ≤ cleaned.length) :
    simWindow maS maL cleaned ≠ [] := by
  intro hnil
  unfold simWindow at hnil
  rw [List.filterMap_eq_nil_iff] at hnil
  have hlc : (cleaned.map (fun p => p.2)).length = cleaned.length :=
    List.length_map _ _
  have hn : 0 < cleaned.length := by omega
  have hidx : cleaned.length - 1 <
      (cleaned.zip ((rollingMean maS (cleaned.map (fun p => p.2))).zip
        (rollingMean maL (cleaned.map (fun p => p.2))))).length := by
    rw [List.length_zip, List.length_zip, length_rollingMean, length_rollingMean, hlc]
    omega
  have hmem := List.getElem_mem hidx
  have hspec := hnil _ hmem
  rw [List.getElem_zip, List.getElem_zip] at hspec
  rw [rollingMean_getElem, rollingMean_getElem] at hspec
  rw [if_pos (by omega), if_pos (by omega)] at hspec
  simp at hspec

/-- Every simulation-window row carries a (date, close) pair of the parsed
input. -/
theorem simWindow_close_mem (maS maL : Nat) (cleaned : List (String × ℚ))
    (r : SimRow) (hr : r ∈ simWindow maS maL cleaned) :
    (r.date, r.close) ∈ cleaned := by
  unfold simWindow at hr
  obtain ⟨a, ha, hfa⟩ := List.mem_filterMap.mp hr
  have h1 : a.1 ∈ cleaned := (List.of_mem_zip ha).1
  revert hfa
  cases a.2.1 <;> cases a.2.2 <;> intro hfa <;> simp at hfa
  rw [← hfa]
  exact h1

/-- A loop iteration on a bar with nonzero close succeeds and preserves the
invariant that a held position has a nonzero entry price. -/
theorem btStep_ok_of_inv (tp sl : ℚ) (st : BtState) (r : SimRow)
    (hc : r.close ≠ 0) (hinv : 0 < st.position → st.entryPrice ≠ 0) :
    ∃ st2, btStep tp sl st r = .ok st2 ∧
      (0 < st2.position → st2.entryPrice ≠ 0) := by
  unfold btStep btStepCore
  try simp only []
  split_ifs
  all_goals first
    | exact absurd ‹r.close = 0› hc
    | exact absurd ‹st.entryPrice = 0› (hinv ‹st.position > 0›)
    | exact ⟨_, rfl, fun hp => show r.close ≠ 0 from hc⟩
    | exact ⟨_, rfl, fun hp => absurd (show (0 : ℚ) < 0 from hp) (lt_irrefl 0)⟩
    | exact ⟨_, rfl, fun hp => show st.entryPrice ≠ 0 from
        hinv (show 0 < st.position from hp)⟩

/-- The loop succeeds when every window close is nonzero and the invariant
holds initially. -/
theorem btLoop_ok_of_inv (tp sl : ℚ) :
    ∀ (rows : List SimRow) (st : BtState),
      (∀ r ∈ rows, r.close ≠ 0) → (0 < st.position → st.entryPrice ≠ 0) →
      ∃ st2, btLoop tp sl st rows = .ok st2
  | [], st => by
    intro _ _
    exact ⟨st, rfl⟩
  | r :: rest, st => by
    intro hc hinv
    obtain ⟨st2, hstep, hinv2⟩ :=
      btStep_ok_of_inv tp sl st r (hc r (List.mem_cons_self r rest)) hinv
    obtain ⟨st3, hloop⟩ :=
      btLoop_ok_of_inv tp sl rest st2 (fun x hx => hc x (List.mem_cons_of_mem r hx)) hinv2
    refine ⟨st3, ?_⟩
    unfold btLoop
    rw [List.foldlM_cons, hstep, except_bind_ok]
    exact hloop

/-- C4 (corrected): `run_backtest` raises InsufficientData exactly when the
raw history is shorter than `ma_long + 5` (the check runs before nulls are
dropped).  The unqualified completion half of the claim is false (see the
counterexample): completion additionally needs at least `ma_long` bars with
a parseable close (else `.iloc[0]` raises IndexError on the empty window),
positive parsed closes and a nonzero capital (else a scalar division by
zero can raise). -/
theorem c4_amended_thm (ohlcv : List Bar) (cap tp sl : ℚ) (maS maL : Nat) :
    (run_backtest ohlcv cap tp sl maS maL = .error .insufficientData ↔
      ohlcv.length < maL + 5)
    ∧ (1 ≤ maS → maS ≤ maL → maL + 5 ≤ ohlcv.length →
       maL ≤ (cleanBars ohlcv).length →
       (∀ p ∈ cleanBars ohlcv, (0 : ℚ) < p.2) → cap ≠ 0 →
       ∃ res, run_backtest ohlcv cap tp sl maS maL = .ok res) := by
  constructor
  · constructor
    · intro h
      by_contra hlen
      unfold run_backtest at h
      rw [if_neg hlen] at h
      cases hrows : simWindow maS maL (cleanBars ohlcv) with
      | nil =>
        simp only [hrows] at h
        cases h
      | cons r0 rest =>
        simp only [hrows] at h
        cases hloop : btLoop tp sl (initState cap r0) (r0 :: rest) with
        | error e =>
          simp only [hloop] at h
          cases h
          exact absurd (btLoop_error_only_zd tp sl (r0 :: rest) (initState cap r0) _ hloop)
            (by decide)
        | ok st =>
          simp only [hloop] at h
          cases hm : mkMetrics cap (liquidate ((r0 :: rest).getLastD r0).close st).curve
              (liquidate ((r0 :: rest).getLastD r0).close st).trades with
          | error e =>
            simp only [hm] at h
            cases h
            exact absurd (mkMetrics_error_only_zd cap _ _ _ hm) (by decide)
          | ok m =>
            simp only [hm] at h
            cases h
    · intro h
      unfold run_backtest
      rw [if_pos h]
  · intro h1 h2 h3 h4 h5 hcap
    have hrows_ne : simWindow maS maL (cleanBars ohlcv) ≠ [] :=
      simWindow_ne_nil maS maL (cleanBars ohlcv) h1 h2 h4
    cases hrows : simWindow maS maL (cleanBars ohlcv) with
    | nil => exact absurd hrows hrows_ne
    | cons r0 rest =>
      have hc : ∀ r ∈ (r0 :: rest : List SimRow), r.close ≠ 0 := by
        intro r hr
        have hmem : (r.date, r.close) ∈ cleanBars ohlcv := by
          refine simWindow_close_mem maS maL (cleanBars ohlcv) r ?_
          rw [hrows]
          exact hr
        exact ne_of_gt (h5 _ hmem)
      obtain ⟨st, hloop⟩ :=
        btLoop_ok_of_inv tp sl (r0 :: rest) (initState cap r0) hc
          (fun hp => absurd hp (by norm_num [initState]))
      have hEq : run_backtest ohlcv cap tp sl maS maL =
          .ok ⟨strategyLabel maS maL,
            mkMetricsVal cap (liquidate ((r0 :: rest).getLastD r0).close st).curve
              (liquidate ((r0 :: rest).getLastD r0).close st).trades,
            (liquidate ((r0 :: rest).getLastD r0).close st).curve,
            (liquidate ((r0 :: rest).getLastD r0).close st).trades⟩ := by
        unfold run_backtest
        rw [if_neg (by omega)]
        simp only [hrows, hloop]
        unfold mkMetrics
        rw [if_neg hcap]
      exact ⟨_, hEq⟩

/-- C4 witness: on 15 bars with valid positive closes and windows 5/10 the
run completes successfully. -/
theorem c4_witness :
    ∃ res, run_backtest exBars 1100 (15/100) (8/100) 5 10 = .ok res :=
  (c4_amended_thm exBars 1100 (15/100) (8/100) 5 10).2
    (by decide) (by decide) (by decide) (by decide) (by decide) (by decide)

/-- C3 counterexample: fifteen strictly increasing closes make the last
Wilder average loss exactly 0; `compute_indicators` does not raise, but the
returned rsi entry is the propagated NaN (`none`), not the claimed 50.0
fallback (and not 100). -/
theorem c3_counterexample_rsi_nan :
    (compute_indicators incBars).rsi = none ∧
      (compute_indicators incBars).rsi ≠ some 50 := by decide

/-- The EWM accumulator has one value per input point. -/
theorem length_ewmAdjAux (β : ℚ) :
    ∀ (xs : List ℚ) (num den : ℚ), (ewmAdjAux β num den xs).length = xs.length
  | [], _, _ => rfl
  | x :: rest, num, den => by
    unfold ewmAdjAux
    simp only [List.length_cons]
    rw [length_ewmAdjAux β rest]

/-- Masking preserves the column length. -/
theorem length_maskMinPeriods (minP : Nat) :
    ∀ (vals : List ℚ) (t : Nat), (maskMinPeriods minP t vals).length = vals.length
  | [], _ => rfl
  | v :: rest, t => by
    unfold maskMinPeriods
    simp only [List.length_cons]
    rw [length_maskMinPeriods minP rest]

/-- On a non-decreasing series every consecutive difference is ≥ 0. -/
theorem diffList_nonneg :
    ∀ (xs : List ℚ), List.Chain' (fun a b => a ≤ b) xs → ∀ d ∈ diffList xs, 0 ≤ d
  | [], _, d, hd => by simp [diffList] at hd
  | [x], _, d, hd => by simp [diffList] at hd
  | x :: y :: rest, hch, d, hd => by
    rw [List.chain'_cons] at hch
    unfold diffList at hd
    simp only [List.tail_cons, List.zipWith_cons_cons, List.mem_cons] at hd
    rcases hd with h | h
    · rw [h]; linarith [hch.1]
    · exact diffList_nonneg (y :: rest) hch.2 d (by simpa [diffList] using h)

/-- The adjusted EWM of an all-zero column is all zero. -/
theorem ewmAdjAux_zeros (β : ℚ) :
    ∀ (n : Nat) (den : ℚ), ewmAdjAux β 0 den (List.replicate n 0) = List.replicate n 0
  | 0, _ => rfl
  | n + 1, den => by
    rw [List.replicate_succ]
    unfold ewmAdjAux
    simp only []
    rw [show β * 0 + 0 = 0 by ring, zero_div, ewmAdjAux_zeros β n (β * den + 1)]

/-- The last masked entry of an all-zero column of length ≥ `min_periods`
(counted from position `t`) is `some 0`. -/
theorem maskMinPeriods_replicate_zero_getLast (minP : Nat) :
    ∀ (n t : Nat), 0 < n → minP ≤ t + n →
      (maskMinPeriods minP t (List.replicate n 0)).getLast? = some (some 0)
  | 0, t, hn, _ => absurd hn (by omega)
  | 1, t, _, hle => by
    unfold maskMinPeriods
    simp only [List.replicate_succ, List.replicate_zero]
    unfold maskMinPeriods
    rw [if_neg (by omega)]
    rfl
  | n + 2, t, _, hle => by
    rw [List.replicate_succ]
    unfold maskMinPeriods
    rw [List.getLast?_cons]
    have htail := maskMinPeriods_replicate_zero_getLast minP (n + 1) (t + 1)
      (by omega) (by omega)
    rw [htail]
    simp

/-- The last entry of a `zipWith` of equal-length lists. -/
theorem getLast?_zipWith {α β γ : Type} (f : α → β → γ) :
    ∀ (a : List α) (b : List β), a.length = b.length →
      ∀ x y, a.getLast? = some x → b.getLast? = some y →
      (List.zipWith f a b).getLast? = some (f x y)
  | [], _, _, x, _, hx, _ => by simp at hx
  | _ :: _, [], _, _, y, _, hy => by simp at hy
  | [a1], b1 :: b2, h, x, y, hx, hy => by
    cases b2 with
    | nil =>
      simp at hx hy
      subst hx
      subst hy
      rfl
    | cons _ _ => simp at h
  | a1 :: a2 :: a3, b1 :: b2, h, x, y, hx, hy => by
    cases b2 with
    | nil => simp at h
    | cons b2h b2t =>
      rw [List.zipWith_cons_cons, List.zipWith_cons_cons, List.getLast?_cons_cons,
        ← List.zipWith_cons_cons]
      rw [List.getLast?_cons_cons] at hx hy
      exact getLast?_zipWith f (a2 :: a3) (b2h :: b2t) (by simpa using h) x y hx hy

/-- Division by NaN is NaN. -/
theorem divNaN_none_right : ∀ (a : Option ℚ), divNaN a none = none
  | some _ => rfl
  | none => rfl

/-- `_calc_rsi` on a long-enough non-decreasing series: the average loss is
exactly 0, `replace(0, nan)` makes the final RS NaN, and the NaN propagates
to the returned value. -/
theorem calc_rsi_no_losses (closes : List ℚ) (hlen : 15 ≤ closes.length)
    (hmono : List.Chain' (fun a b => a ≤ b) closes) :
    calc_rsi closes 14 = none := by
  unfold calc_rsi
  rw [if_neg (by omega)]
  simp only [Nat.cast_ofNat]
  have hmdel : (diffList closes).length = closes.length - 1 := by
    unfold diffList
    rw [List.length_zipWith, List.length_tail]
    omega
  have hloss : (diffList closes).map (fun d => max (-d) 0) =
      List.replicate (diffList closes).length 0 := by
    rw [List.eq_replicate_iff]
    refine ⟨List.length_map _ _, ?_⟩
    intro b hb
    obtain ⟨d, hd, hbd⟩ := List.mem_map.mp hb
    have hd0 : 0 ≤ d := diffList_nonneg closes hmono d hd
    rw [← hbd]
    exact max_eq_right (by linarith)
  have hlossLast :
      ((ewmMean ((14 : ℚ) - 1) 14 ((diffList closes).map (fun d => max (-d) 0))).map
        replaceZeroNaN).getLast? = some none := by
    rw [hloss]
    unfold ewmMean
    rw [ewmAdjAux_zeros]
    rw [List.getLast?_map]
    rw [maskMinPeriods_replicate_zero_getLast 14 (diffList closes).length 0
      (by omega) (by omega)]
    rfl
  have hgainlen :
      (ewmMean ((14 : ℚ) - 1) 14 ((diffList closes).map (fun d => max d 0))).length =
        (diffList closes).length := by
    unfold ewmMean
    rw [length_maskMinPeriods, length_ewmAdjAux, List.length_map]
  have hgne : ewmMean ((14 : ℚ) - 1) 14 ((diffList closes).map (fun d => max d 0)) ≠ [] := by
    intro hnil
    rw [hnil] at hgainlen
    simp only [List.length_nil] at hgainlen
    omega
  have hga := List.getLast?_eq_getLast _ hgne
  have hlosslen :
      ((ewmMean ((14 : ℚ) - 1) 14 ((diffList closes).map (fun d => max (-d) 0))).map
        replaceZeroNaN).length = (diffList closes).length := by
    unfold ewmMean
    rw [List.length_map, length_maskMinPeriods, length_ewmAdjAux, List.length_map]
  have hrs := getLast?_zipWith divNaN
    (ewmMean ((14 : ℚ) - 1) 14 ((diffList closes).map (fun d => max d 0)))
    ((ewmMean ((14 : ℚ) - 1) 14 ((diffList closes).map (fun d => max (-d) 0))).map
      replaceZeroNaN)
    (by rw [hgainlen, hlosslen]) _ none hga hlossLast
  rw [List.getLast?_map, hrs, divNaN_none_right]
  rfl

/-- C3 (corrected): on every input whose parsed closes are ≥ 15 and
non-decreasing (the average-loss-exactly-0 case), `compute_indicators` does
not raise — but the rsi entry it returns is NaN (`none`), not the claimed
50.0 default (`round(float(nan), 2)` is still NaN and no exception reaches
the `except` fallback). -/
theorem c3_amended_thm (ohlcv : List Bar)
    (hlen : 15 ≤ (to_dataframe ohlcv).length)
    (hmono : List.Chain' (fun a b => a ≤ b) (to_dataframe ohlcv)) :
    (compute_indicators ohlcv).rsi = none := by
  have hne2 : ohlcv.isEmpty = false := by
    cases ohlcv with
    | nil => simp [to_dataframe] at hlen
    | cons _ _ => rfl
  unfold compute_indicators compute_indicators_inner
  rw [hne2]
  simp only [Bool.false_eq_true, if_false]
  rw [calc_rsi_no_losses (to_dataframe ohlcv) hlen hmono]
  rfl

/-- C3 witness: the amended statement at the concrete increasing series. -/
theorem c3_witness : (compute_indicators incBars).rsi = none :=
  c3_amended_thm incBars (by decide)
    (show List.Chain' (fun a b => a ≤ b)
        ([1, 2, 3, 4, 5, 6, 7, 8, 9, 10, 11, 12, 13, 14, 15] : List ℚ) by
      norm_num [List.chain'_cons, List.chain'_singleton])
